import Mathlib

/- Shallow embedding of the numeric core of the stylus-hook repository
   (src/VolatilityCalculator.rs and src/PositionOptimizer.rs).

   Modelling conventions:
   * `U256` values are `Nat` together with the saturating operations the
     source uses: `saturating_add` and `saturating_mul` clamp at
     `2 ^ 256 - 1`, and `saturating_sub` on unsigned values is truncated
     subtraction, which is exactly `Nat` subtraction.  Plain `U256`
     arithmetic that can overflow is modelled with an explicit `% 2 ^ 256`
     (release-profile wrap-around semantics).
   * `i32` values are modelled as `Int`; Rust `i32` division truncates
     toward zero, which is `Int.tdiv`.  Where `i32` addition, subtraction,
     multiplication or `abs` can overflow in the tick pipeline
     (`calculate_optimal_position_bounds`, `should_rebalance`), the
     two's-complement wrap of release builds is modelled explicitly with
     `wrap32`; in `calculate_position_efficiency` the tick arithmetic is
     modelled as unbounded `Int` and its theorem carries magnitude
     hypotheses confining it to the region where model and code agree.
   * The `u32` subtraction in `calculate_position_efficiency` wraps modulo
     `2 ^ 32` (release semantics); this is modelled explicitly, and
     `U256::as_u32` is modelled as `% 2 ^ 32`.
   * Rust division by zero panics; the one place the source can divide by
     zero (inside `sqrt`, reachable only for the input `2 ^ 256 - 1`) is
     modelled with Lean's `n / 0 = 0` convention and is called out at the
     relevant theorem.
   * `price_to_tick` converts a price to a tick through `f64` logarithms;
     floating point is outside the embedding, so every function that calls
     it is parameterised by an abstract conversion function `pt`.
-/

namespace StylusHook

def U256MAX : Nat := 2 ^ 256 - 1

/-- Rust `U256::saturating_add`. -/
def satAdd (a b : Nat) : Nat := min (a + b) U256MAX

/-- Rust `U256::saturating_mul`. -/
def satMul (a b : Nat) : Nat := min (a * b) U256MAX

/-- The `sol!` error declarations of the two contracts, pooled into one
error type. -/
inductive SolErr where
  | InvalidPriceArray : SolErr
  | InvalidTickSpacing : SolErr
  | InvalidTimeWindow : SolErr
deriving DecidableEq

/-- VolatilityCalculator.rs `abs_diff` (`if a >= b { a - b } else { b - a }`);
the same comparison-then-subtract pattern is inlined in `compute_variance`
and `compute_std_dev`. -/
def abs_diff (a b : Nat) : Nat := if b ≤ a then a - b else b - a

/-- VolatilityCalculator.rs `compute_variance`: saturating sum of squared
deviations from `mean`, divided by the length (0 for an empty series). -/
def compute_variance (prices : List Nat) (mean : Nat) : Nat :=
  if prices.length = 0 then 0
  else
    (prices.foldl (fun acc price =>
      satAdd acc (satMul (abs_diff price mean) (abs_diff price mean))) 0) / prices.length

/-- `compute_mean`, textually identical in VolatilityCalculator.rs and
PositionOptimizer.rs: saturating sum divided by length, 0 for an empty
series. -/
def compute_mean (prices : List Nat) : Nat :=
  if prices.length = 0 then 0
  else (prices.foldl satAdd 0) / prices.length

/-- VolatilityCalculator.rs `calculate_price_movement_intensity`: average of
absolute consecutive differences (`abs_diff (prices[i]) (prices[i-1])`). -/
def calculate_price_movement_intensity (prices : List Nat) : Nat :=
  if prices.length ≤ 1 then 0
  else
    ((prices.zip prices.tail).foldl (fun acc pr => satAdd acc (abs_diff pr.2 pr.1)) 0) /
      (prices.length - 1)

/-- The running-minimum scan inside VolatilityCalculator.rs
`calculate_relative_volatility` (`min_price` starts at `U256::MAX`). -/
def seriesMin (prices : List Nat) : Nat :=
  prices.foldl (fun m price => if price < m then price else m) U256MAX

/-- The running-maximum scan inside VolatilityCalculator.rs
`calculate_relative_volatility` (`max_price` starts at zero). -/
def seriesMax (prices : List Nat) : Nat :=
  prices.foldl (fun m price => if m < price then price else m) 0

/-- VolatilityCalculator.rs `calculate_relative_volatility`.  The two plain
`U256` multiplications by 10000 and the plain additions of the weighted terms
wrap modulo `2 ^ 256`; the weighted terms themselves use `saturating_mul`. -/
def calculate_relative_volatility (prices : List Nat) (base_price : Nat) : Nat :=
  let mean := compute_mean prices
  let variance := compute_variance prices mean
  let movement_intensity := calculate_price_movement_intensity prices
  let variation_coefficient := if 0 < mean then variance * 10000 % 2 ^ 256 / mean else 0
  let min_price := seriesMin prices
  let max_price := seriesMax prices
  let price_range := if min_price < max_price then max_price - min_price else 0
  let price_range_percent :=
    if 0 < base_price then price_range * 10000 % 2 ^ 256 / base_price else 0
  let volatility_score :=
    (satMul variation_coefficient 6 + satMul price_range_percent 3 +
      satMul movement_intensity 1) % 2 ^ 256 / 10
  if 10000 < volatility_score then 10000 else volatility_score

/-- VolatilityCalculator.rs `calculate_volatility_score`.  The two token
address arguments are never inspected by the source and are omitted. -/
def calculate_volatility_score (recent_prices : List Nat) (time_window : Nat) :
    Except SolErr Nat :=
  if recent_prices.length = 0 then .error .InvalidPriceArray
  else if time_window = 0 then .error .InvalidTimeWindow
  else .ok (calculate_relative_volatility recent_prices (compute_mean recent_prices))

/-- VolatilityCalculator.rs `get_recommended_fee`.  `saturating_sub` on `U256`
is `Nat` subtraction and `as_u32` is `% 2 ^ 32`. -/
def get_recommended_fee (volatility_score base_fee max_fee : Nat) : Except SolErr Nat :=
  if volatility_score ≤ 1000 then .ok base_fee
  else if 9000 ≤ volatility_score then .ok max_fee
  else
    let normalized_score := volatility_score - 1000
    let fee_range := max_fee - base_fee
    let fee_increase := satMul normalized_score fee_range / 8000
    let dynamic_fee := satAdd base_fee fee_increase
    .ok (dynamic_fee % 2 ^ 32)

/-- The loop of PositionOptimizer.rs `sqrt` (Newton iteration,
`while y < x { x = y; y = (x + n / x) / 2 }`).  The addition `x + n / x` can
only overflow `U256` for `n = 2 ^ 256 - 1`; the wrap is modelled with
`% 2 ^ 256`, and the subsequent Rust division by zero (a panic) falls back to
Lean's `n / 0 = 0` convention. -/
def sqrtGo (n x y : Nat) : Nat :=
  if h : y < x then sqrtGo n y ((y + n / y) % 2 ^ 256 / 2) else x
termination_by x

/-- PositionOptimizer.rs `sqrt`: 0 for 0, otherwise Newton iteration started
from `x = n`, `y = (x + 1) / 2`. -/
def sqrt (n : Nat) : Nat :=
  if n = 0 then 0 else sqrtGo n n ((n + 1) % 2 ^ 256 / 2)

/-- PositionOptimizer.rs `compute_std_dev`: 0 for length ≤ 1, otherwise the
integer square root of the (saturating) variance. -/
def compute_std_dev (prices : List Nat) (mean : Nat) : Nat :=
  if prices.length ≤ 1 then 0
  else
    sqrt ((prices.foldl (fun acc price =>
      satAdd acc (satMul (abs_diff price mean) (abs_diff price mean))) 0) / prices.length)

/-- PositionOptimizer.rs `round_to_spacing`: `(tick / spacing) * spacing`
with Rust `i32` division, i.e. truncation toward zero. -/
def round_to_spacing (tick spacing : Int) : Int := tick.tdiv spacing * spacing

/-- Two's-complement wrap of an `i32` arithmetic result into
`[-2 ^ 31, 2 ^ 31)`, the release-profile behaviour of overflowing `i32`
operations. -/
def wrap32 (a : Int) : Int := (a + 2 ^ 31) % 2 ^ 32 - 2 ^ 31

/-- PositionOptimizer.rs `calculate_optimal_position_bounds`.  The
float-based `price_to_tick` is abstracted as the parameter `pt`; the unused
token addresses and liquidity amount are omitted.  The plain multiplication
`std_dev * 100` cannot overflow (`std_dev ≤ 2 ^ 128`), but the wrap is kept
for faithfulness.  The `i32` additions `mean_tick ± tick_range` can overflow
(e.g. when `pt` yields `i32::MIN`, which the source's `price_to_tick`
produces at price 0 via the saturating cast of `ln 0 = -inf`) and wrap;
`volatility_multiplier * tick_spacing ≤ 6000` and the multiply-back inside
`round_to_spacing` cannot overflow. -/
def calculate_optimal_position_bounds (pt : Nat → Int) (recent_prices : List Nat) :
    Except SolErr (Int × Int) :=
  if recent_prices.length < 2 then .error .InvalidPriceArray
  else
    let mean_price := compute_mean recent_prices
    let std_dev := compute_std_dev recent_prices mean_price
    let mean_tick := pt mean_price
    let std_dev_percentage :=
      if 0 < mean_price then std_dev * 100 % 2 ^ 256 / mean_price else 0
    let tick_spacing : Int := 60
    let volatility_multiplier : Int :=
      if std_dev_percentage < 5 then 20
      else if std_dev_percentage < 10 then 30
      else if std_dev_percentage < 20 then 50
      else 100
    let tick_range := volatility_multiplier * tick_spacing
    let lower_tick := round_to_spacing (wrap32 (mean_tick - tick_range)) tick_spacing
    let upper_tick := round_to_spacing (wrap32 (mean_tick + tick_range)) tick_spacing
    .ok (lower_tick, upper_tick)

/-- PositionOptimizer.rs `should_rebalance`.  `recent_prices[len - 1]` is
`List.getLastD` (the length-≥-2 check has already succeeded when it is
read); `i32` division is `Int.tdiv`.  Every `i32` subtraction and
multiplication that can overflow wraps via `wrap32` (release semantics), and
`i32::abs` is `natAbs` followed by `wrap32` (so `abs i32::MIN` wraps back to
`i32::MIN` exactly as `i32::wrapping_abs` does); the two divisions cannot
overflow because the divisor is positive after the range check. -/
def should_rebalance (pt : Nat → Int) (current_lower_tick current_upper_tick : Int)
    (recent_prices : List Nat) : Except SolErr (Bool × Int × Int) :=
  match calculate_optimal_position_bounds pt recent_prices with
  | .error e => .error e
  | .ok (optimal_lower, optimal_upper) =>
    let current_price := recent_prices.getLastD 0
    let current_tick := pt current_price
    let current_range := wrap32 (current_upper_tick - current_lower_tick)
    if current_range ≤ 0 then .error .InvalidTickSpacing
    else
      let dist_from_lower := wrap32 (current_tick - current_lower_tick)
      let dist_from_upper := wrap32 (current_upper_tick - current_tick)
      let lower_pct := (wrap32 (dist_from_lower * 100)).tdiv current_range
      let upper_pct := (wrap32 (dist_from_upper * 100)).tdiv current_range
      let sr : Bool :=
        decide (current_tick ≤ current_lower_tick) ||
        decide (current_upper_tick ≤ current_tick) ||
        decide (lower_pct < 10) ||
        decide (upper_pct < 10) ||
        decide (current_range.tdiv 4 <
          wrap32 ((wrap32 (optimal_lower - current_lower_tick)).natAbs : Int)) ||
        decide (current_range.tdiv 4 <
          wrap32 ((wrap32 (optimal_upper - current_upper_tick)).natAbs : Int))
      .ok (sr, optimal_lower, optimal_upper)

/-- PositionOptimizer.rs `calculate_position_efficiency`.  The final
`100u32 - (...) as u32` wraps modulo `2 ^ 32` (release semantics); the cast
itself is value-preserving because the quotient is non-negative. -/
def calculate_position_efficiency
    (current_lower_tick current_upper_tick current_tick : Int) : Except SolErr Nat :=
  if current_upper_tick ≤ current_lower_tick then .error .InvalidTickSpacing
  else if current_tick < current_lower_tick ∨ current_upper_tick < current_tick then .ok 0
  else
    let range_size := current_upper_tick - current_lower_tick
    let distance_from_middle :=
      (current_tick - current_lower_tick - range_size.tdiv 2).natAbs
    let max_distance := range_size.tdiv 2
    if max_distance = 0 then .ok 100
    else
      .ok (((100 - ((distance_from_middle : Int) * 100).tdiv max_distance) % 2 ^ 32).toNat)

/-! ### General helper lemmas -/

theorem tmod_neg_left (a b : Int) : (-a).tmod b = -(a.tmod b) := by
  rw [Int.tmod_def, Int.tmod_def, Int.neg_tdiv]
  ring

theorem tmod_bounds (a : Int) {b : Int} (hb : 0 < b) : -b < a.tmod b ∧ a.tmod b < b := by
  refine ⟨?_, Int.tmod_lt_of_pos a hb⟩
  rcases le_or_lt 0 a with ha | ha
  · have := Int.tmod_nonneg b ha
    omega
  · have h1 : (-a).tmod b < b := Int.tmod_lt_of_pos (-a) hb
    rw [tmod_neg_left] at h1
    omega

theorem tdiv_mul_sandwich (a : Int) {b : Int} (hb : 0 < b) :
    a - (b - 1) ≤ a.tdiv b * b ∧ a.tdiv b * b ≤ a + (b - 1) := by
  have h1 := Int.tdiv_add_tmod a b
  have h2 := tmod_bounds a hb
  constructor <;> nlinarith [h1, h2.1, h2.2]

theorem foldl_satAdd_eq (l : List Nat) :
    ∀ a, a + l.sum ≤ U256MAX → l.foldl satAdd a = a + l.sum := by
  induction l with
  | nil => intro a _; simp
  | cons x xs ih =>
    intro a h
    simp only [List.foldl_cons, List.sum_cons] at *
    have hx : satAdd a x = a + x := by
      have : a + x ≤ U256MAX := by omega
      simp [satAdd, this]
    rw [hx, ih (a + x) (by omega)]
    ring

theorem foldlMin_le_init (l : List Nat) :
    ∀ (a : Nat), l.foldl (fun m price => if price < m then price else m) a ≤ a := by
  induction l with
  | nil => intro a; simp
  | cons y ys ih =>
    intro a
    simp only [List.foldl_cons]
    calc ys.foldl (fun m price => if price < m then price else m) (if y < a then y else a)
        ≤ (if y < a then y else a) := ih _
      _ ≤ a := by split <;> omega

theorem seriesMin_le_mem (l : List Nat) :
    ∀ (a : Nat), ∀ x ∈ l, l.foldl (fun m price => if price < m then price else m) a ≤ x := by
  induction l with
  | nil => intro a x hx; cases hx
  | cons y ys ih =>
    intro a x hx
    simp only [List.foldl_cons]
    rcases List.mem_cons.mp hx with hx | hx
    · subst hx
      calc ys.foldl (fun m price => if price < m then price else m) (if x < a then x else a)
          ≤ (if x < a then x else a) := foldlMin_le_init ys _
        _ ≤ x := by split <;> omega
    · exact ih _ x hx

theorem init_le_foldlMax (l : List Nat) :
    ∀ (a : Nat), a ≤ l.foldl (fun m price => if m < price then price else m) a := by
  induction l with
  | nil => intro a; simp
  | cons y ys ih =>
    intro a
    simp only [List.foldl_cons]
    calc a ≤ (if a < y then y else a) := by split <;> omega
      _ ≤ ys.foldl (fun m price => if m < price then price else m) (if a < y then y else a) :=
        ih _

theorem mem_le_seriesMax (l : List Nat) :
    ∀ (a : Nat), ∀ x ∈ l, x ≤ l.foldl (fun m price => if m < price then price else m) a := by
  induction l with
  | nil => intro a x hx; cases hx
  | cons y ys ih =>
    intro a x hx
    simp only [List.foldl_cons]
    rcases List.mem_cons.mp hx with hx | hx
    · subst hx
      calc x ≤ (if a < x then x else a) := by split <;> omega
        _ ≤ ys.foldl (fun m price => if m < price then price else m) (if a < x then x else a) :=
          init_le_foldlMax ys _
    · exact ih _ x hx

theorem length_mul_le_sum (l : List Nat) (m : Nat) (h : ∀ x ∈ l, m ≤ x) :
    l.length * m ≤ l.sum := by
  induction l with
  | nil => simp
  | cons x xs ih =>
    simp only [List.length_cons, List.sum_cons]
    have hx : m ≤ x := h x (by simp)
    have := ih (fun y hy => h y (by simp [hy]))
    calc (xs.length + 1) * m = xs.length * m + m := by ring
      _ ≤ xs.sum + x := by omega
      _ = x + xs.sum := by ring

theorem sum_le_length_mul (l : List Nat) (M : Nat) (h : ∀ x ∈ l, x ≤ M) :
    l.sum ≤ l.length * M := by
  induction l with
  | nil => simp
  | cons x xs ih =>
    simp only [List.length_cons, List.sum_cons]
    have hx : x ≤ M := h x (by simp)
    have := ih (fun y hy => h y (by simp [hy]))
    calc x + xs.sum ≤ M + xs.length * M := by omega
      _ = (xs.length + 1) * M := by ring

/-! ### Claim C9 -/

/-- C9: for every tick and positive spacing, `round_to_spacing` returns a
multiple of the spacing, equals `(tick / spacing) * spacing` with truncating
division, is at most `tick` for non-negative ticks, and is at least `tick`
for negative ticks (truncation toward zero, not floor rounding). -/
theorem C9_round_to_spacing (tick spacing : Int) (hs : 0 < spacing) :
    spacing ∣ round_to_spacing tick spacing ∧
    round_to_spacing tick spacing = tick.tdiv spacing * spacing ∧
    (0 ≤ tick → round_to_spacing tick spacing ≤ tick) ∧
    (tick < 0 → tick ≤ round_to_spacing tick spacing) := by
  refine ⟨⟨tick.tdiv spacing, mul_comm _ _⟩, rfl, ?_, ?_⟩
  · intro ht
    have h1 := Int.tdiv_add_tmod tick spacing
    have h2 := Int.tmod_nonneg spacing ht
    unfold round_to_spacing
    nlinarith [h1, h2]
  · intro ht
    have h1 := Int.tdiv_add_tmod tick spacing
    have h2 : tick.tmod spacing ≤ 0 := by
      have h3 : (-tick).tmod spacing = -(tick.tmod spacing) := tmod_neg_left tick spacing
      have h4 := Int.tmod_nonneg spacing (by omega : (0:Int) ≤ -tick)
      omega
    unfold round_to_spacing
    nlinarith [h1, h2]

/-- Witness for C9 at `tick = -70`, `spacing = 60`. -/
theorem C9_witness :
    (60:Int) ∣ round_to_spacing (-70) 60 ∧
    round_to_spacing (-70) 60 = Int.tdiv (-70) 60 * 60 ∧
    (0 ≤ (-70:Int) → round_to_spacing (-70) 60 ≤ -70) ∧
    ((-70:Int) < 0 → -70 ≤ round_to_spacing (-70) 60) :=
  C9_round_to_spacing (-70) 60 (by norm_num)

/-! ### Claim C10 -/

/-- C10: in `should_rebalance` the `InvalidPriceArray` failure for a series
of length < 2 takes precedence over the `InvalidTickSpacing` failure for a
non-positive current range, because the optimal bounds are computed (and the
error propagated with `?`) before the range check. -/
theorem C10_error_precedence (pt : Nat → Int) (prices : List Nat)
    (cl cu : Int) (hlen : prices.length < 2) (hr : cu - cl ≤ 0) :
    should_rebalance pt cl cu prices = .error .InvalidPriceArray := by
  simp [should_rebalance, calculate_optimal_position_bounds, hlen]

/-- Witness for C10: an empty-range, too-short call fails with
`InvalidPriceArray`. -/
theorem C10_witness :
    should_rebalance (fun _ => 0) 10 5 [5] = .error .InvalidPriceArray :=
  C10_error_precedence (fun _ => 0) [5] 10 5 (by norm_num) (by norm_num)

/-! ### Claim C5 -/

/-- C5 counterexample: for the series `[U256::MAX, U256::MAX]` the
saturating sum clamps at `U256::MAX`, so the computed mean
`(2 ^ 256 - 1) / 2` lies strictly below the series minimum; the claimed
min/max envelope fails. -/
theorem C5_counterexample :
    ¬ (seriesMin [U256MAX, U256MAX] ≤ compute_mean [U256MAX, U256MAX] ∧
       compute_mean [U256MAX, U256MAX] ≤ seriesMax [U256MAX, U256MAX]) := by
  decide

/-- C5 amended: for every non-empty series whose exact element sum does not
exceed `U256::MAX` (so the saturating additions are exact), the mean computed
by `compute_mean` lies between the series minimum and maximum, inclusive. -/
theorem C5_mean_between (prices : List Nat) (hne : prices ≠ [])
    (hsum : prices.sum ≤ U256MAX) :
    seriesMin prices ≤ compute_mean prices ∧ compute_mean prices ≤ seriesMax prices := by
  have hlen : 0 < prices.length := List.length_pos.mpr hne
  have hmean : compute_mean prices = prices.sum / prices.length := by
    unfold compute_mean
    rw [if_neg (by omega)]
    rw [foldl_satAdd_eq prices 0 (by omega), Nat.zero_add]
  constructor
  · rw [hmean]
    rw [Nat.le_div_iff_mul_le hlen, mul_comm]
    exact length_mul_le_sum prices _ (fun x hx => seriesMin_le_mem prices U256MAX x hx)
  · rw [hmean]
    have h1 : prices.sum ≤ prices.length * seriesMax prices :=
      sum_le_length_mul prices _ (fun x hx => mem_le_seriesMax prices 0 x hx)
    calc prices.sum / prices.length ≤ prices.length * seriesMax prices / prices.length :=
          Nat.div_le_div_right h1
      _ = seriesMax prices := Nat.mul_div_cancel_left _ hlen

/-- Witness for C5 amended at the series `[2, 4]`. -/
theorem C5_witness :
    seriesMin [2, 4] ≤ compute_mean [2, 4] ∧ compute_mean [2, 4] ≤ seriesMax [2, 4] :=
  C5_mean_between [2, 4] (by decide) (by decide)

/-! ### Claim C7 -/

/-- C7 counterexample: `compute_variance` has no length ≤ 1 guard, so for the
length-1 series `[5]` with the (arbitrary) mean argument 3 it returns
`|5 - 3|^2 = 4`, not 0. -/
theorem C7_counterexample : ¬ compute_variance [5] 3 = 0 := by decide

/-- C7 amended: for every series of `U256` values of length ≤ 1,
`compute_std_dev` returns 0 for any mean argument (it has an explicit
length ≤ 1 guard), and `compute_variance` returns 0 when the mean argument is
`compute_mean` of the series, which is the value passed at every call site. -/
theorem C7_short_series (prices : List Nat) (mean : Nat)
    (hlen : prices.length ≤ 1) (hel : ∀ x ∈ prices, x ≤ U256MAX) :
    (mean = compute_mean prices → compute_variance prices mean = 0) ∧
    compute_std_dev prices mean = 0 := by
  match prices, hlen with
  | [], _ =>
    constructor
    · intro _; simp [compute_variance]
    · simp [compute_std_dev]
  | [p], _ =>
    have hp : p ≤ U256MAX := hel p (by simp)
    constructor
    · intro hm
      have hmean : compute_mean [p] = p := by
        simp [compute_mean, satAdd, hp]
      subst hm
      rw [hmean]
      simp [compute_variance, abs_diff, satMul, satAdd]
    · simp [compute_std_dev]

/-- Witness for C7 amended at the series `[7]`. -/
theorem C7_witness :
    (compute_variance [7] (compute_mean [7]) = 0) ∧ compute_std_dev [7] 3 = 0 :=
  ⟨(C7_short_series [7] (compute_mean [7]) (by decide) (by decide)).1 rfl,
   (C7_short_series [7] 3 (by decide) (by decide)).2⟩

/-! ### Claim C4 -/

theorem clamp_le_10000 (v : Nat) : (if 10000 < v then 10000 else v) ≤ 10000 := by
  split <;> omega

theorem calculate_relative_volatility_le_10000 (prices : List Nat) (base_price : Nat) :
    calculate_relative_volatility prices base_price ≤ 10000 := by
  unfold calculate_relative_volatility
  dsimp only
  exact clamp_le_10000 _

/-- C4: `calculate_volatility_score` fails with `InvalidPriceArray` iff the
series is empty, fails with `InvalidTimeWindow` iff the series is non-empty
and the time window is zero, and otherwise returns `Ok` with a score clamped
to at most 10000. -/
theorem C4_volatility_score_spec (prices : List Nat) (tw : Nat) :
    (calculate_volatility_score prices tw = .error .InvalidPriceArray ↔ prices = []) ∧
    (calculate_volatility_score prices tw = .error .InvalidTimeWindow ↔
      prices ≠ [] ∧ tw = 0) ∧
    (prices ≠ [] → tw ≠ 0 →
      ∃ s, calculate_volatility_score prices tw = .ok s ∧ s ≤ 10000) := by
  by_cases hp : prices = []
  · subst hp
    by_cases htw : tw = 0 <;> simp [calculate_volatility_score, htw]
  · have hlen : prices.length ≠ 0 := fun h => hp (List.length_eq_zero.mp h)
    by_cases htw : tw = 0
    · simp [calculate_volatility_score, hlen, htw, hp]
    · refine ⟨?_, ?_, ?_⟩
      · simp [calculate_volatility_score, hlen, htw, hp]
      · simp [calculate_volatility_score, hlen, htw, hp]
      · intro _ _
        refine ⟨calculate_relative_volatility prices (compute_mean prices), ?_,
          calculate_relative_volatility_le_10000 prices (compute_mean prices)⟩
        simp [calculate_volatility_score, hlen, htw]

/-- Witness for C4: an empty series fails with `InvalidPriceArray`; a
non-empty series with non-zero window gets a clamped score. -/
theorem C4_witness :
    (calculate_volatility_score ([] : List Nat) 5 = .error .InvalidPriceArray) ∧
    (∃ s, calculate_volatility_score [2, 4] 7 = .ok s ∧ s ≤ 10000) :=
  ⟨(C4_volatility_score_spec [] 5).1.mpr rfl,
   (C4_volatility_score_spec [2, 4] 7).2.2 (by simp) (by norm_num)⟩

/-! ### Claim C2 -/

theorem get_recommended_fee_eval (base_fee max_fee : Nat) (hbm : base_fee ≤ max_fee)
    (hmax : max_fee < 2 ^ 32) (s : Nat) :
    get_recommended_fee s base_fee max_fee =
      .ok (if s ≤ 1000 then base_fee
        else if 9000 ≤ s then max_fee
        else base_fee + (s - 1000) * (max_fee - base_fee) / 8000) := by
  unfold get_recommended_fee
  by_cases h1 : s ≤ 1000
  · simp [h1]
  · by_cases h2 : 9000 ≤ s
    · simp [h1, h2]
    · rw [if_neg h1, if_neg h2, if_neg h1, if_neg h2]
      dsimp only
      have hprod : (s - 1000) * (max_fee - base_fee) ≤ U256MAX := by
        calc (s - 1000) * (max_fee - base_fee) ≤ 8000 * 2 ^ 32 :=
              Nat.mul_le_mul (by omega) (by omega)
          _ ≤ U256MAX := by norm_num [U256MAX]
      have hmul : satMul (s - 1000) (max_fee - base_fee) =
          (s - 1000) * (max_fee - base_fee) := by
        simp [satMul, hprod]
      rw [hmul]
      have hinc : (s - 1000) * (max_fee - base_fee) / 8000 ≤ max_fee - base_fee := by
        calc (s - 1000) * (max_fee - base_fee) / 8000
            ≤ 8000 * (max_fee - base_fee) / 8000 :=
              Nat.div_le_div_right (Nat.mul_le_mul_right _ (by omega))
          _ = max_fee - base_fee := Nat.mul_div_cancel_left _ (by norm_num)
      have hadd : satAdd base_fee ((s - 1000) * (max_fee - base_fee) / 8000) =
          base_fee + (s - 1000) * (max_fee - base_fee) / 8000 := by
        have : base_fee + (s - 1000) * (max_fee - base_fee) / 8000 ≤ U256MAX := by
          have h32 : (2:Nat) ^ 32 ≤ U256MAX := by norm_num [U256MAX]
          omega
        simp [satAdd, this]
      rw [hadd]
      have hlt : base_fee + (s - 1000) * (max_fee - base_fee) / 8000 < 2 ^ 32 := by omega
      rw [Nat.mod_eq_of_lt hlt]

/-- C2: for fixed `base_fee ≤ max_fee`, `get_recommended_fee` is monotonic
non-decreasing in the volatility score, returns exactly `base_fee` for every
score in [0, 1000], exactly `max_fee` for every score in [9000, 10000], and
`base_fee + (score - 1000) * (max_fee - base_fee) / 8000` for scores strictly
between 1000 and 9000. -/
theorem C2_fee_spec (base_fee max_fee : Nat) (hbm : base_fee ≤ max_fee)
    (hmax : max_fee < 2 ^ 32) :
    (∀ s t a b, s ≤ t → get_recommended_fee s base_fee max_fee = .ok a →
      get_recommended_fee t base_fee max_fee = .ok b → a ≤ b) ∧
    (∀ s, s ≤ 1000 → get_recommended_fee s base_fee max_fee = .ok base_fee) ∧
    (∀ s, 9000 ≤ s → s ≤ 10000 → get_recommended_fee s base_fee max_fee = .ok max_fee) ∧
    (∀ s, 1000 < s → s < 9000 → get_recommended_fee s base_fee max_fee =
      .ok (base_fee + (s - 1000) * (max_fee - base_fee) / 8000)) := by
  have hinc_le : ∀ s, s < 9000 →
      (s - 1000) * (max_fee - base_fee) / 8000 ≤ max_fee - base_fee := by
    intro s hs
    calc (s - 1000) * (max_fee - base_fee) / 8000
        ≤ 8000 * (max_fee - base_fee) / 8000 :=
          Nat.div_le_div_right (Nat.mul_le_mul_right _ (by omega))
      _ = max_fee - base_fee := Nat.mul_div_cancel_left _ (by norm_num)
  refine ⟨?_, ?_, ?_, ?_⟩
  · intro s t a b hst ha hb
    rw [get_recommended_fee_eval base_fee max_fee hbm hmax s] at ha
    rw [get_recommended_fee_eval base_fee max_fee hbm hmax t] at hb
    injection ha with ha
    injection hb with hb
    subst ha hb
    by_cases h1s : s ≤ 1000
    · rw [if_pos h1s]
      split
      · exact le_refl _
      · split
        · exact hbm
        · omega
    · by_cases h2s : 9000 ≤ s
      · rw [if_neg h1s, if_pos h2s, if_neg (by omega : ¬ t ≤ 1000), if_pos (by omega)]
      · rw [if_neg h1s, if_neg h2s]
        by_cases h1t : t ≤ 1000
        · omega
        · by_cases h2t : 9000 ≤ t
          · rw [if_neg h1t, if_pos h2t]
            have := hinc_le s (by omega)
            omega
          · rw [if_neg h1t, if_neg h2t]
            have hmm : (s - 1000) * (max_fee - base_fee) ≤ (t - 1000) * (max_fee - base_fee) :=
              Nat.mul_le_mul_right _ (by omega)
            have h8 : (s - 1000) * (max_fee - base_fee) / 8000 ≤
                (t - 1000) * (max_fee - base_fee) / 8000 := Nat.div_le_div_right hmm
            omega
  · intro s hs
    rw [get_recommended_fee_eval base_fee max_fee hbm hmax s, if_pos hs]
  · intro s hs _
    rw [get_recommended_fee_eval base_fee max_fee hbm hmax s,
      if_neg (by omega : ¬ s ≤ 1000), if_pos hs]
  · intro s hs1 hs2
    rw [get_recommended_fee_eval base_fee max_fee hbm hmax s,
      if_neg (by omega : ¬ s ≤ 1000), if_neg (by omega : ¬ 9000 ≤ s)]

/-- Witness for C2 with `base_fee = 10`, `max_fee = 100` at the scores 500,
9000 and 5000. -/
theorem C2_witness :
    get_recommended_fee 500 10 100 = .ok 10 ∧
    get_recommended_fee 9000 10 100 = .ok 100 ∧
    get_recommended_fee 5000 10 100 = .ok (10 + (5000 - 1000) * (100 - 10) / 8000) :=
  ⟨(C2_fee_spec 10 100 (by norm_num) (by norm_num)).2.1 500 (by norm_num),
   (C2_fee_spec 10 100 (by norm_num) (by norm_num)).2.2.1 9000 (by norm_num) (by norm_num),
   (C2_fee_spec 10 100 (by norm_num) (by norm_num)).2.2.2 5000 (by norm_num) (by norm_num)⟩

/-! ### Claim C1 -/

/-- C1 counterexample: with `lower = 0`, `upper = 3`, `tick = 3` the tick is
inside the range, the half-range is 1, the distance from the middle is 2, so
the quotient is 200 and the `u32` subtraction `100 - 200` wraps to
`2 ^ 32 - 100 = 4294967196`, far above the claimed bound of 100 (with
overflow checks enabled the code panics at the same input instead; either way
the claimed [0, 100] envelope fails). -/
theorem C1_counterexample :
    calculate_position_efficiency 0 3 3 = .ok 4294967196 ∧ ¬ (4294967196 : Nat) ≤ 100 :=
  ⟨rfl, by norm_num⟩

theorem efficiency_q_le_100 (lower upper tick : Int) (hlt : lower < upper)
    (h1 : lower ≤ tick) (h2 : tick ≤ upper) (hhz : (upper - lower).tdiv 2 ≠ 0)
    (hexcl : ¬((upper - lower) % 2 = 1 ∧ tick = upper ∧ (upper - lower).tdiv 2 ≤ 100)) :
    (tick - lower - (upper - lower).tdiv 2).natAbs * 100 /
      ((upper - lower).tdiv 2).toNat ≤ 100 := by
  have htd : (upper - lower).tdiv 2 = (upper - lower) / 2 :=
    Int.tdiv_eq_ediv (by omega) (by norm_num)
  rw [htd] at hhz hexcl ⊢
  have hHpos : 0 < (upper - lower) / 2 := by omega
  set H : Nat := ((upper - lower) / 2).toNat with hH_def
  have hHpos' : 0 < H := by omega
  set D : Nat := (tick - lower - (upper - lower) / 2).natAbs with hD_def
  have hDle : D ≤ H + 1 := by omega
  rcases Nat.lt_or_ge D (H + 1) with hcase | hcase
  · have hD100 : D * 100 ≤ H * 100 := Nat.mul_le_mul_right _ (by omega)
    calc D * 100 / H ≤ H * 100 / H := Nat.div_le_div_right hD100
      _ = 100 := Nat.mul_div_cancel_left _ hHpos'
  · have hDeq : D = H + 1 := by omega
    have hH101 : 101 ≤ H := by omega
    rw [hDeq]
    have hexp : (H + 1) * 100 = 100 + H * 100 := by ring
    rw [hexp, Nat.add_mul_div_left _ _ hHpos', Nat.div_eq_of_lt (by omega)]

theorem efficiency_q_cast (lower upper tick : Int) (hlt : lower < upper)
    (hhz : (upper - lower).tdiv 2 ≠ 0) :
    (((tick - lower - (upper - lower).tdiv 2).natAbs : Int) * 100).tdiv
        ((upper - lower).tdiv 2) =
      ((tick - lower - (upper - lower).tdiv 2).natAbs * 100 /
        ((upper - lower).tdiv 2).toNat : Nat) := by
  have hT0 : 0 ≤ (upper - lower).tdiv 2 := Int.tdiv_nonneg (by omega) (by norm_num)
  have hHt : ((((upper - lower).tdiv 2).toNat : Nat) : Int) = (upper - lower).tdiv 2 :=
    Int.toNat_of_nonneg hT0
  have hmul : (((tick - lower - (upper - lower).tdiv 2).natAbs : Int) * 100) =
      (((tick - lower - (upper - lower).tdiv 2).natAbs * 100 : Nat) : Int) := by
    push_cast
    ring
  rw [hmul, Int.ofNat_tdiv, hHt]

theorem wrap_sub_le (q : Nat) (hq : q ≤ 100) :
    (((100 - (q:Int)) % 4294967296).toNat) ≤ 100 ∧
    (((100 - (q:Int)) % 4294967296).toNat) = 100 - q := by
  omega

/-- C1 amended: for ticks of magnitude at most `10 ^ 7` (so the internal
`i32` arithmetic cannot overflow) with `upper > lower`, and excluding the
single boundary configuration in which `upper - lower` is odd, the current
tick sits exactly on `upper`, and the half-range is at most 100 (there the
distance from the middle exceeds the half-range, the quotient exceeds 100 and
the `u32` subtraction wraps, as the counterexample shows),
`calculate_position_efficiency` returns `Ok` with a value in [0, 100]: 0 when
the tick is outside `[lower, upper]`, 100 when the half-range
`(upper - lower) / 2` (truncating) is zero, and otherwise
`100 - |tick - lower - (upper - lower) / 2| * 100 / ((upper - lower) / 2)`. -/
theorem C1_efficiency_spec (lower upper tick : Int)
    (hbl : lower.natAbs ≤ 10 ^ 7) (hbu : upper.natAbs ≤ 10 ^ 7)
    (hbt : tick.natAbs ≤ 10 ^ 7) (hlt : lower < upper)
    (hexcl : ¬((upper - lower) % 2 = 1 ∧ tick = upper ∧ (upper - lower).tdiv 2 ≤ 100)) :
    ∃ r, calculate_position_efficiency lower upper tick = .ok r ∧ r ≤ 100 ∧
      ((tick < lower ∨ upper < tick) → r = 0) ∧
      (lower ≤ tick → tick ≤ upper → (upper - lower).tdiv 2 = 0 → r = 100) ∧
      (lower ≤ tick → tick ≤ upper → (upper - lower).tdiv 2 ≠ 0 →
        r = 100 - (tick - lower - (upper - lower).tdiv 2).natAbs * 100 /
          ((upper - lower).tdiv 2).toNat) := by
  unfold calculate_position_efficiency
  rw [if_neg (not_le.mpr hlt)]
  by_cases hout : tick < lower ∨ upper < tick
  · rw [if_pos hout]
    exact ⟨0, rfl, by omega, fun _ => rfl,
      fun ha hb _ => by rcases hout with h | h <;> omega,
      fun ha hb _ => by rcases hout with h | h <;> omega⟩
  · rw [if_neg hout]
    push_neg at hout
    obtain ⟨h1, h2⟩ := hout
    dsimp only
    by_cases hhz : (upper - lower).tdiv 2 = 0
    · rw [if_pos hhz]
      exact ⟨100, rfl, by omega, fun hc => by rcases hc with h | h <;> omega,
        fun _ _ _ => rfl, fun _ _ hne => absurd hhz hne⟩
    · rw [if_neg hhz]
      have hq := efficiency_q_le_100 lower upper tick hlt h1 h2 hhz hexcl
      have h32 : (2:Int) ^ 32 = 4294967296 := by norm_num
      refine ⟨_, rfl, ?_, ?_, ?_, ?_⟩
      · rw [efficiency_q_cast lower upper tick hlt hhz, h32]
        exact (wrap_sub_le _ hq).1
      · intro hc; rcases hc with h | h <;> omega
      · intro _ _ h0; exact absurd h0 hhz
      · intro _ _ _
        rw [efficiency_q_cast lower upper tick hlt hhz, h32]
        exact (wrap_sub_le _ hq).2

/-- Witness for C1 amended at `lower = 0`, `upper = 100`, `tick = 50`
(exact centre, efficiency 100). -/
theorem C1_witness :
    ∃ r, calculate_position_efficiency 0 100 50 = .ok r ∧ r ≤ 100 ∧
      (((50:Int) < 0 ∨ (100:Int) < 50) → r = 0) ∧
      ((0:Int) ≤ 50 → (50:Int) ≤ 100 → ((100:Int) - 0).tdiv 2 = 0 → r = 100) ∧
      ((0:Int) ≤ 50 → (50:Int) ≤ 100 → ((100:Int) - 0).tdiv 2 ≠ 0 →
        r = 100 - ((50:Int) - 0 - ((100:Int) - 0).tdiv 2).natAbs * 100 /
          (((100:Int) - 0).tdiv 2).toNat) :=
  C1_efficiency_spec 0 100 50 (by norm_num) (by norm_num) (by norm_num) (by norm_num)
    (by decide)

/-! ### Claim C3 -/

theorem round_sandwich (a : Int) : a - 59 ≤ round_to_spacing a 60 ∧
    round_to_spacing a 60 ≤ a + 59 := by
  have h := tdiv_mul_sandwich a (by norm_num : (0:Int) < 60)
  unfold round_to_spacing
  omega

theorem bounds_wf (t R : Int) (hR : 1200 ≤ R) :
    round_to_spacing (t - R) 60 < round_to_spacing (t + R) 60 ∧
    (60:Int) ∣ round_to_spacing (t - R) 60 ∧ (60:Int) ∣ round_to_spacing (t + R) 60 := by
  refine ⟨?_, ⟨(t - R).tdiv 60, mul_comm _ _⟩, ⟨(t + R).tdiv 60, mul_comm _ _⟩⟩
  have h1 := round_sandwich (t - R)
  have h2 := round_sandwich (t + R)
  omega

theorem wrap32_eq_self {a : Int} (h1 : -2147483648 ≤ a) (h2 : a < 2147483648) :
    wrap32 a = a := by
  unfold wrap32
  rw [show ((2:Int) ^ 31) = 2147483648 from by norm_num,
    show ((2:Int) ^ 32) = 4294967296 from by norm_num]
  omega

theorem bounds_wf_wrapped (t R : Int) (ht : t.natAbs ≤ 2 ^ 31 - 6001)
    (hR1 : 1200 ≤ R) (hR2 : R ≤ 6000) :
    round_to_spacing (wrap32 (t - R)) 60 < round_to_spacing (wrap32 (t + R)) 60 ∧
    (60:Int) ∣ round_to_spacing (wrap32 (t - R)) 60 ∧
    (60:Int) ∣ round_to_spacing (wrap32 (t + R)) 60 := by
  rw [show ((2:Nat) ^ 31 - 6001) = 2147477647 from by norm_num] at ht
  rw [wrap32_eq_self (by omega) (by omega), wrap32_eq_self (by omega) (by omega)]
  exact bounds_wf t R hR1

/-- C3 counterexample: at the series `[0, 0]` the mean price is 0 and the
source's `price_to_tick` computes `ln 0 = -inf`, whose saturating `f64 → i32`
cast is `i32::MIN = -2 ^ 31`; the conversion parameter is therefore
instantiated with that value.  The `i32` subtraction
`mean_tick - tick_range = i32::MIN - 1200` then wraps to `2 ^ 31 - 1200` in
release builds (it panics with overflow checks enabled), so the code returns
`Ok` with `lower = 2147482440 > upper = -2147482440`, refuting
`lower < upper`. -/
theorem C3_counterexample :
    calculate_optimal_position_bounds (fun _ => -(2 ^ 31)) [0, 0] =
      .ok (2147482440, -2147482440) ∧
    ¬ ((2147482440:Int) < -2147482440) :=
  ⟨rfl, by norm_num⟩

/-- C3 amended: for every price series of length ≥ 2, provided the
(abstracted, float-based) price-to-tick conversion `pt` maps the mean price
to a tick of magnitude at most `2 ^ 31 - 6001` — so the `i32` additions
`mean_tick ± tick_range` cannot wrap; the counterexample shows the claim
fails when `pt` returns `i32::MIN`, as the source's conversion does at
price 0 — `calculate_optimal_position_bounds` returns `Ok (lower, upper)`
with `lower < upper` and both bounds multiples of 60; for series of
length < 2 it fails with `InvalidPriceArray`. -/
theorem C3_optimal_bounds_spec (pt : Nat → Int) (prices : List Nat) :
    (prices.length < 2 →
      calculate_optimal_position_bounds pt prices = .error .InvalidPriceArray) ∧
    (2 ≤ prices.length → (pt (compute_mean prices)).natAbs ≤ 2 ^ 31 - 6001 →
      ∃ l u, calculate_optimal_position_bounds pt prices = .ok (l, u) ∧
        l < u ∧ (60:Int) ∣ l ∧ (60:Int) ∣ u) := by
  constructor
  · intro hlen
    simp [calculate_optimal_position_bounds, hlen]
  · intro hlen hpt
    unfold calculate_optimal_position_bounds
    rw [if_neg (by omega : ¬ prices.length < 2)]
    dsimp only
    refine ⟨_, _, rfl, ?_, ?_, ?_⟩
    · exact (bounds_wf_wrapped _ _ hpt (by split_ifs <;> norm_num)
        (by split_ifs <;> norm_num)).1
    · exact (bounds_wf_wrapped _ _ hpt (by split_ifs <;> norm_num)
        (by split_ifs <;> norm_num)).2.1
    · exact (bounds_wf_wrapped _ _ hpt (by split_ifs <;> norm_num)
        (by split_ifs <;> norm_num)).2.2

/-- Witness for C3 amended at the constant conversion `pt = 0` and the
series `[1, 2]`. -/
theorem C3_witness :
    ∃ l u, calculate_optimal_position_bounds (fun _ => 0) [1, 2] = .ok (l, u) ∧
      l < u ∧ (60:Int) ∣ l ∧ (60:Int) ∣ u :=
  (C3_optimal_bounds_spec (fun _ => 0) [1, 2]).2 (by norm_num) (by norm_num)

/-! ### Claim C8 -/

theorem opt_bounds_ok (pt : Nat → Int) (prices : List Nat) (hlen : 2 ≤ prices.length) :
    ∃ l u, calculate_optimal_position_bounds pt prices = .ok (l, u) := by
  unfold calculate_optimal_position_bounds
  rw [if_neg (by omega : ¬ prices.length < 2)]
  exact ⟨_, _, rfl⟩

/-- C8 counterexample: at `current_lower = i32::MIN`, `current_upper = 0`
with the series `[1, 1]` and a conversion sending every price to tick 0
(so the tick of the last price equals the upper bound and the mathematical
range `0 - i32::MIN = 2 ^ 31` is positive, as the second conjunct records),
the `i32` range subtraction wraps to `-2 ^ 31 ≤ 0` in release builds (it
panics with overflow checks enabled) and the call fails with
`InvalidTickSpacing` instead of returning the claimed `Ok (true, ...)`. -/
theorem C8_counterexample :
    should_rebalance (fun _ => 0) (-(2 ^ 31)) 0 [1, 1] = .error .InvalidTickSpacing ∧
    ((0:Int) < 0 - -(2 ^ 31)) :=
  ⟨rfl, by norm_num⟩

/-- C8 amended: for every series of length ≥ 2 whose current range is
positive and representable in `i32` (`0 < currentUpper - currentLower
< 2 ^ 31`, so the `i32` range subtraction cannot wrap — the counterexample
shows the claim fails when the mathematical range is `≥ 2 ^ 31`), if the
(abstracted) tick of the last price equals `current_upper_tick` exactly,
`should_rebalance` returns `Ok` with boolean component `true` (the
at-or-outside-bound disjunct `current_tick >= current_upper_tick` is
boundary-inclusive), and the returned tuple carries exactly the optimal
bounds computed by `calculate_optimal_position_bounds`. -/
theorem C8_boundary_rebalance (pt : Nat → Int) (prices : List Nat)
    (current_lower current_upper : Int) (hlen : 2 ≤ prices.length)
    (hrange : 0 < current_upper - current_lower)
    (hfit : current_upper - current_lower < 2 ^ 31)
    (htick : pt (prices.getLastD 0) = current_upper) :
    ∃ l u, calculate_optimal_position_bounds pt prices = .ok (l, u) ∧
      should_rebalance pt current_lower current_upper prices = .ok (true, l, u) := by
  obtain ⟨l, u, hok⟩ := opt_bounds_ok pt prices hlen
  refine ⟨l, u, hok, ?_⟩
  unfold should_rebalance
  rw [hok]
  dsimp only
  rw [show ((2:Int) ^ 31) = 2147483648 from by norm_num] at hfit
  rw [wrap32_eq_self (by omega) hfit]
  rw [if_neg (by omega : ¬ current_upper - current_lower ≤ 0)]
  rw [htick]
  have h2 : decide (current_upper ≤ current_upper) = true := by simp
  rw [h2]
  simp

/-- Witness for C8 amended: with the constant conversion `pt = 100`, series
`[1, 2]` and current range `[40, 100]`, the last tick sits exactly on the
upper bound and rebalancing is recommended together with the fresh optimal
bounds. -/
theorem C8_witness :
    ∃ l u, calculate_optimal_position_bounds (fun _ => 100) [1, 2] = .ok (l, u) ∧
      should_rebalance (fun _ => 100) 40 100 [1, 2] = .ok (true, l, u) :=
  C8_boundary_rebalance (fun _ => 100) [1, 2] 40 100 (by norm_num) (by norm_num)
    (by norm_num) rfl

/-! ### Claim C6 -/

theorem x_add_div_le (n x : Nat) (hx1 : 1 ≤ x) (hxn : x ≤ n) : x + n / x ≤ n + 1 := by
  have hdm : x * (n / x) ≤ n := by
    rw [mul_comm]
    exact Nat.div_mul_le_self n x
  have hkey : x * x + n ≤ x * (n + 1) := by
    zify
    nlinarith [mul_nonneg (by omega : (0:Int) ≤ (x:Int) - 1) (by omega : (0:Int) ≤ (n:Int) - x)]
  have hmul : x * (x + n / x) ≤ x * (n + 1) := by
    calc x * (x + n / x) = x * x + x * (n / x) := by ring
      _ ≤ x * x + n := by omega
      _ ≤ x * (n + 1) := hkey
  exact Nat.le_of_mul_le_mul_left hmul (by omega)

theorem newton_y_ge_sqrt (n x : Nat) (hx : 1 ≤ x) : Nat.sqrt n ≤ (x + n / x) / 2 := by
  rcases Nat.eq_zero_or_pos (Nat.sqrt n) with hs | hs
  · rw [hs]
    exact Nat.zero_le _
  · by_contra hcon
    push_neg at hcon
    have h2 : x + n / x < 2 * Nat.sqrt n := by
      have := (Nat.div_lt_iff_lt_mul (by norm_num : 0 < 2)).mp hcon
      omega
    have h3 : n < x * (n / x) + x := by
      have hdm := Nat.div_add_mod n x
      have hml := Nat.mod_lt n (by omega : 0 < x)
      omega
    have h4 : Nat.sqrt n * Nat.sqrt n ≤ n := Nat.sqrt_le n
    zify at h2 h3 h4
    nlinarith [sq_nonneg ((x:Int) - (Nat.sqrt n : Int)),
      mul_le_mul_of_nonneg_left
        (show (x:Int) + (n / x : Nat) + 1 ≤ 2 * (Nat.sqrt n : Int) from by omega)
        (show (0:Int) ≤ x from by omega)]

theorem sqrtGo_spec (n : Nat) (hn1 : 1 ≤ n) (hn2 : n + 1 < 2 ^ 256) :
    ∀ x, 1 ≤ x → x ≤ n → Nat.sqrt n ≤ x →
      sqrtGo n x ((x + n / x) % 2 ^ 256 / 2) * sqrtGo n x ((x + n / x) % 2 ^ 256 / 2) ≤ n ∧
      n < (sqrtGo n x ((x + n / x) % 2 ^ 256 / 2) + 1) *
        (sqrtGo n x ((x + n / x) % 2 ^ 256 / 2) + 1) := by
  intro x
  induction x using Nat.strong_induction_on with
  | _ x ih =>
    intro hx1 hxn hsx
    have hbound : x + n / x ≤ n + 1 := x_add_div_le n x hx1 hxn
    have hmod : (x + n / x) % 2 ^ 256 = x + n / x := Nat.mod_eq_of_lt (by omega)
    rw [sqrtGo, hmod]
    by_cases hyx : (x + n / x) / 2 < x
    · rw [dif_pos hyx]
      have hsy : Nat.sqrt n ≤ (x + n / x) / 2 := newton_y_ge_sqrt n x hx1
      have hy1 : 1 ≤ (x + n / x) / 2 := by
        have : 1 ≤ Nat.sqrt n := (Nat.sqrt_pos).mpr (by omega)
        omega
      have hyn : (x + n / x) / 2 ≤ n := by omega
      exact ih _ hyx hy1 hyn hsy
    · rw [dif_neg hyx]
      push_neg at hyx
      have hx_le : x * 2 ≤ x + n / x := (Nat.le_div_iff_mul_le (by norm_num)).mp hyx
      have hxd : x ≤ n / x := by omega
      have hxx : x * x ≤ n := (Nat.le_div_iff_mul_le (by omega)).mp hxd
      have hup : n < (Nat.sqrt n + 1) * (Nat.sqrt n + 1) := Nat.lt_succ_sqrt n
      have hmono : (Nat.sqrt n + 1) * (Nat.sqrt n + 1) ≤ (x + 1) * (x + 1) :=
        Nat.mul_le_mul (by omega) (by omega)
      exact ⟨hxx, by omega⟩

/-- C6 counterexample: at `n = 2 ^ 256 - 1` the initial `x + 1` wraps to 0
(release semantics), so `y = 0 < x` and the next loop iteration divides by
zero: with the `n / 0 = 0` convention the model returns 0, which violates
`n < (sqrt n + 1) ^ 2`; under Rust semantics the call panics on the division
by zero (or already on the wrapping add with overflow checks enabled).
Either way the exactness law fails at this input. -/
theorem C6_counterexample :
    ¬ (sqrt (2 ^ 256 - 1) * sqrt (2 ^ 256 - 1) ≤ 2 ^ 256 - 1 ∧
       2 ^ 256 - 1 < (sqrt (2 ^ 256 - 1) + 1) * (sqrt (2 ^ 256 - 1) + 1)) := by
  have h : sqrt (2 ^ 256 - 1) = 0 := by
    rw [sqrt]
    norm_num
    rw [sqrtGo]
    norm_num
    rw [sqrtGo]
    norm_num
  rw [h]
  norm_num

/-- C6 amended: for every `n ≤ 2 ^ 256 - 2` (every `U256` input except
`U256::MAX`, where the initial increment overflows), the Newton iteration
`sqrt` computes the exact integer floor square root:
`sqrt n * sqrt n ≤ n < (sqrt n + 1) * (sqrt n + 1)`; in particular
`sqrt 0 = 0` and `sqrt` is exact on 1 and on all perfect squares in range. -/
theorem C6_sqrt_exact (n : Nat) (hn : n ≤ 2 ^ 256 - 2) :
    sqrt n * sqrt n ≤ n ∧ n < (sqrt n + 1) * (sqrt n + 1) := by
  have hpow : (2:Nat) ≤ 2 ^ 256 := by norm_num
  rcases Nat.eq_zero_or_pos n with hz | hpos
  · subst hz
    rw [sqrt]
    norm_num
  · have h := sqrtGo_spec n hpos (by omega) n hpos le_rfl (Nat.sqrt_le_self n)
    rw [Nat.div_self (by omega : 0 < n)] at h
    rw [sqrt, if_neg (by omega)]
    exact h

/-- Witness for C6 amended at `n = 10` (`sqrt 10 = 3`). -/
theorem C6_witness :
    sqrt 10 * sqrt 10 ≤ 10 ∧ 10 < (sqrt 10 + 1) * (sqrt 10 + 1) :=
  C6_sqrt_exact 10 (by norm_num)

end StylusHook
